import Mathlib

/-!
# Process lifecycle and resource accounting of the shell

A shallow embedding of `src/src/Shell.cpp` (class `Shell`) and of the read loop
that `src/doit.cpp` duplicates.

Modelling conventions.

* `timeval` and `rusage` are the POSIX records of `<sys/time.h>` and
  `<sys/resource.h>`; their fields are signed 64-bit `long`s.  A `long` or
  `int` value is carried by an `Int`, and every arithmetic operation of the
  source on such values is followed by an explicit reduction into the range of
  its type (`wrap_long`, modulo `2 ^ 64`; `wrap_int`, modulo `2 ^ 32`), which
  is the identity exactly when the operation does not overflow.
* `size_t` arithmetic on the loop index of `checkBackgroundJobs` is unsigned and
  does wrap; it is modelled by `Nat` with an explicit `% 2 ^ 64`.
* `/` on `long` truncates towards zero and is modelled by `Int.tdiv`.
* The operating system (`gettimeofday`, `fork`, `getrusage`, `waitpid`) is an
  arbitrary state-passing oracle `OS W` over an abstract world `W`.
* Everything the shell prints, and every system call it issues, is appended in
  program order to the `trace` field of the shell state.
-/

namespace UnixShell

/-! ## Data model -/

/-- POSIX `struct timeval`: seconds and microseconds. -/
structure timeval where
  tv_sec : Int
  tv_usec : Int
  deriving DecidableEq, Repr

/-- POSIX `struct rusage` (all sixteen fields of the Linux layout). -/
structure rusage where
  ru_utime : timeval
  ru_stime : timeval
  ru_maxrss : Int
  ru_ixrss : Int
  ru_idrss : Int
  ru_isrss : Int
  ru_minflt : Int
  ru_majflt : Int
  ru_nswap : Int
  ru_inblock : Int
  ru_oublock : Int
  ru_msgsnd : Int
  ru_msgrcv : Int
  ru_nsignals : Int
  ru_nvcsw : Int
  ru_nivcsw : Int
  deriving DecidableEq, Repr

/-- Value-initialised `rusage d{}`: every field is zero. -/
def rusage.zero : rusage :=
  { ru_utime := ⟨0, 0⟩, ru_stime := ⟨0, 0⟩, ru_maxrss := 0, ru_ixrss := 0,
    ru_idrss := 0, ru_isrss := 0, ru_minflt := 0, ru_majflt := 0, ru_nswap := 0,
    ru_inblock := 0, ru_oublock := 0, ru_msgsnd := 0, ru_msgrcv := 0,
    ru_nsignals := 0, ru_nvcsw := 0, ru_nivcsw := 0 }

/-- Record `Job` of `include/Shell.h`. -/
structure Job where
  pid : Int
  id : Int
  command : String
  start : timeval
  before : rusage
  deriving DecidableEq, Repr

/-! ## Machine integers -/

/-- Smallest value of a 64-bit `long`. -/
def LONG_MIN : Int := -9223372036854775808

/-- Largest value of a 64-bit `long`. -/
def LONG_MAX : Int := 9223372036854775807

/-- Largest value of a 32-bit `int`. -/
def INT_MAX : Int := 2147483647

/-- Result of a `long` operation whose exact value is `x`: the representative
of `x` modulo `2 ^ 64` in `[LONG_MIN, LONG_MAX]`. -/
def wrap_long (x : Int) : Int :=
  (x + 9223372036854775808) % 18446744073709551616 - 9223372036854775808

/-- Result of an `int` operation whose exact value is `x`: the representative
of `x` modulo `2 ^ 32` in `[-2 ^ 31, INT_MAX]`. -/
def wrap_int (x : Int) : Int :=
  (x + 2147483648) % 4294967296 - 2147483648

/-- An exact value that a `long` can hold. -/
def inLong (x : Int) : Prop := LONG_MIN ≤ x ∧ x ≤ LONG_MAX

instance (x : Int) : Decidable (inLong x) := by
  unfold inLong; infer_instance

/-! ## Resource-delta arithmetic (`Shell.cpp` lines 144-188) -/

/-- Function `Shell::tv_sub`: component-wise difference with a one-second borrow
when the microsecond difference is negative. -/
def tv_sub (a b : timeval) : timeval :=
  let out : timeval :=
    { tv_sec := wrap_long (a.tv_sec - b.tv_sec), tv_usec := wrap_long (a.tv_usec - b.tv_usec) }
  if out.tv_usec < 0 then
    { tv_sec := wrap_long (out.tv_sec - 1), tv_usec := wrap_long (out.tv_usec + 1000000) }
  else
    out

/-- Function `Shell::ru_delta`: starts from the zero record and assigns seven
fields. -/
def ru_delta (after before : rusage) : rusage :=
  { rusage.zero with
    ru_utime := tv_sub after.ru_utime before.ru_utime
    ru_stime := tv_sub after.ru_stime before.ru_stime
    ru_nvcsw := wrap_long (after.ru_nvcsw - before.ru_nvcsw)
    ru_nivcsw := wrap_long (after.ru_nivcsw - before.ru_nivcsw)
    ru_majflt := wrap_long (after.ru_majflt - before.ru_majflt)
    ru_minflt := wrap_long (after.ru_minflt - before.ru_minflt)
    ru_maxrss := after.ru_maxrss }

/-- The seven numbers `Shell::printStatus` prints, in the order of its lines. -/
structure StatsReport where
  cpu_ms : Int
  elapsed_ms : Int
  nivcsw : Int
  nvcsw : Int
  majflt : Int
  minflt : Int
  maxrss : Int
  deriving DecidableEq, Repr

/-- Function `Shell::printStatus`: the elapsed time is recomputed inline with
its own borrow, the CPU time is read off the `usage` argument. -/
def printStatus (start end_ : timeval) (usage : rusage) : StatsReport :=
  let seconds0 := wrap_long (end_.tv_sec - start.tv_sec)
  let microseconds0 := wrap_long (end_.tv_usec - start.tv_usec)
  let microseconds :=
    if microseconds0 < 0 then wrap_long (microseconds0 + 1000000) else microseconds0
  let seconds := if microseconds0 < 0 then wrap_long (seconds0 - 1) else seconds0
  let elapsed_ms := wrap_long (wrap_long (seconds * 1000) + Int.tdiv microseconds 1000)
  let user_ms :=
    wrap_long (wrap_long (usage.ru_utime.tv_sec * 1000) + Int.tdiv usage.ru_utime.tv_usec 1000)
  let sys_ms :=
    wrap_long (wrap_long (usage.ru_stime.tv_sec * 1000) + Int.tdiv usage.ru_stime.tv_usec 1000)
  { cpu_ms := wrap_long (user_ms + sys_ms)
    elapsed_ms := elapsed_ms
    nivcsw := usage.ru_nivcsw
    nvcsw := usage.ru_nvcsw
    majflt := usage.ru_majflt
    minflt := usage.ru_minflt
    maxrss := usage.ru_maxrss }

/-- A timeval is normalised when its microsecond field lies in `[0, 1000000)`. -/
def timeval.normalized (t : timeval) : Prop :=
  0 ≤ t.tv_usec ∧ t.tv_usec < 1000000

instance (t : timeval) : Decidable t.normalized := by
  unfold timeval.normalized; infer_instance

/-- Chronological order on timevals: seconds first, then microseconds. -/
def timeval.le (a b : timeval) : Prop :=
  a.tv_sec < b.tv_sec ∨ (a.tv_sec = b.tv_sec ∧ a.tv_usec ≤ b.tv_usec)

instance (a b : timeval) : Decidable (a.le b) := by
  unfold timeval.le; infer_instance

/-- The instant a timeval denotes, counted in microseconds (exact). -/
def timeval.toMicros (t : timeval) : Int :=
  t.tv_sec * 1000000 + t.tv_usec

/-! ## Shell state, trace and operating-system oracle -/

/-- One entry of the trace: a system call issued by the shell, or something it
wrote to `cout` / `cerr`. -/
inductive Event where
  | sys_gettimeofday
  | sys_fork
  | sys_getrusage_children
  | sys_waitpid (pid : Int) (nohang : Bool)
  | sys_chdir (dir : String)
  | cerr (msg : String)
  | cout (msg : String)
  | announce (id pid : Int)
  | completed (id pid : Int)
  | statistics (r : StatsReport)
  | jobLine (id pid : Int) (command : String)
  deriving DecidableEq, Repr

/-- The members of class `Shell`, plus the trace. -/
structure Shell where
  backgroundJobs : List Job
  numJobs : Int
  prompt : String
  trace : List Event
  deriving DecidableEq, Repr

/-- Constructor `Shell::Shell()`: `numJobs(1)`, `prompt("==> ")`, empty table. -/
def Shell.init : Shell :=
  { backgroundJobs := [], numJobs := 1, prompt := "==> ", trace := [] }

/-- Appends entries to the trace. -/
def Shell.log (s : Shell) (es : List Event) : Shell :=
  { s with trace := s.trace ++ es }

/-- The operating system as a state-passing oracle over a world `W`.
`waitpid w pid nohang` is `waitpid(pid, &status, nohang ? WNOHANG : 0)`. -/
structure OS (W : Type) where
  gettimeofday : W → timeval × W
  fork : W → Int × W
  getrusage_children : W → rusage × W
  waitpid : W → Int → Bool → Int × W
  chdir : W → String → Int × W

/-! ## `Shell::executeCommand` (`Shell.cpp` lines 75-118) -/

/-- How a call of `executeCommand` ends for the process that runs the model:
it returns to the read loop (fork failed, or we are the parent), or we are the
forked child, whose image is replaced by `execvp` or which leaves through
`exit(1)` and never returns to the loop. -/
inductive ExecOutcome (W : Type) where
  | returned (w : W) (s : Shell)
  | child (w : W) (s : Shell)

/-- One slot of the `char *args[128]` buffer. -/
inductive Slot where
  | uninit
  | null
  | ptr (str : String)
  deriving DecidableEq, Repr

/-- Function `Shell::executeCommand`. -/
def executeCommand {W : Type} (os : OS W) (w : W) (s : Shell)
    (_args : List Slot) (isBackground : Bool) (commandName : String) : ExecOutcome W :=
  let (start, w1) := os.gettimeofday w
  let (pid, w2) := os.fork w1
  let s1 := s.log [Event.sys_gettimeofday, Event.sys_fork]
  if pid < 0 then
    ExecOutcome.returned w2 (s1.log [Event.cerr "Fork error"])
  else if pid = 0 then
    ExecOutcome.child w2 s1
  else if isBackground then
    let (before, w3) := os.getrusage_children w2
    let newJob : Job :=
      { pid := pid, id := s1.numJobs, command := commandName, start := start, before := before }
    ExecOutcome.returned w3
      { s1 with
        backgroundJobs := s1.backgroundJobs ++ [newJob]
        numJobs := wrap_int (s1.numJobs + 1)
        trace := s1.trace ++ [Event.sys_getrusage_children, Event.announce newJob.id pid] }
  else
    let (before, w3) := os.getrusage_children w2
    let (_, w4) := os.waitpid w3 pid false
    let (after, w5) := os.getrusage_children w4
    let (end_, w6) := os.gettimeofday w5
    let delta := ru_delta after before
    ExecOutcome.returned w6
      (s1.log [Event.sys_getrusage_children, Event.sys_waitpid pid false,
        Event.sys_getrusage_children, Event.sys_gettimeofday,
        Event.statistics (printStatus start end_ delta)])

/-! ## `Shell::checkBackgroundJobs` (`Shell.cpp` lines 120-140) -/

/-- Unsigned `i--` on a `size_t`. -/
def size_t_dec (i : Nat) : Nat := (i + 2 ^ 64 - 1) % 2 ^ 64

/-- Unsigned `i++` on a `size_t`. -/
def size_t_inc (i : Nat) : Nat := (i + 1) % 2 ^ 64

/-- The `for` loop of `Shell::checkBackgroundJobs`, from index `i` on.  The
first argument bounds the number of evaluations of the loop condition; `none`
means the bound was hit (or an index was out of range). -/
def checkLoop {W : Type} (os : OS W) : Nat → Nat → W → Shell → Option (W × Shell)
  | 0, _, _, _ => none
  | fuel + 1, i, w, s =>
    if i < s.backgroundJobs.length then
      match s.backgroundJobs[i]? with
      | none => none
      | some job =>
        let (r, w1) := os.waitpid w job.pid true
        if r > 0 then
          let (end_, w2) := os.gettimeofday w1
          let (after, w3) := os.getrusage_children w2
          let delta := ru_delta after job.before
          let s1 := s.log [Event.sys_waitpid job.pid true, Event.sys_gettimeofday,
            Event.sys_getrusage_children, Event.completed job.id job.pid,
            Event.statistics (printStatus job.start end_ delta)]
          let s2 := { s1 with backgroundJobs := s1.backgroundJobs.eraseIdx i }
          checkLoop os fuel (size_t_inc (size_t_dec i)) w3 s2
        else
          checkLoop os fuel (size_t_inc i) w1 (s.log [Event.sys_waitpid job.pid true])
    else
      some (w, s)

/-- Function `Shell::checkBackgroundJobs`: the loop started at index 0.  Each
iteration either advances `i` or shortens the table, so `length + 1`
evaluations of the loop condition are enough. -/
def checkBackgroundJobs {W : Type} (os : OS W) (w : W) (s : Shell) : Option (W × Shell) :=
  checkLoop os (s.backgroundJobs.length + 1) 0 w s

/-! ## Shutdown drain (`Shell.cpp` lines 18-26) -/

/-- The exit / end-of-input branch of `Shell::run`, up to its `break`. -/
def shutdownDrain {W : Type} (os : OS W) (w : W) (s : Shell) : W × Shell :=
  if s.backgroundJobs.isEmpty then
    (w, s)
  else
    s.backgroundJobs.foldl
      (fun (acc : W × Shell) (job : Job) =>
        ((os.waitpid acc.1 job.pid false).2, acc.2.log [Event.sys_waitpid job.pid false]))
      (w, s.log [Event.cout "Waiting for background jobs..."])

/-! ## The read loop `Shell::run` (`Shell.cpp` lines 12-73) -/

/-- Whitespace of the classic locale, as skipped by `ss >> word`. -/
def isspace (c : Char) : Bool :=
  c = ' ' || c = '\t' || c = '\n' || c = Char.ofNat 11 || c = Char.ofNat 12 || c = '\r'

/-- The loop `while (ss >> word) tokens.push_back(word)`: `word` is the token
being read, `tokens` the vector so far. -/
def tokenizeAux : List Char → List Char → List String → List String
  | [], word, tokens => if word.isEmpty then tokens else tokens ++ [String.mk word]
  | c :: cs, word, tokens =>
    if isspace c then
      if word.isEmpty then tokenizeAux cs [] tokens
      else tokenizeAux cs [] (tokens ++ [String.mk word])
    else tokenizeAux cs (word ++ [c]) tokens

/-- Whitespace split of the input line. -/
def tokenize (input_line : String) : List String :=
  tokenizeAux input_line.data [] []

/-- Lines 37-41: `if (tokens.back() == "&") { isBackground = true; tokens.pop_back(); }`. -/
def stripBackground (tokens : List String) : List String × Bool :=
  if tokens.getLast? = some "&" then (tokens.dropLast, true) else (tokens, false)

/-- An access outside the bounds of a container: the source has no defined
behaviour there. -/
inductive Fault where
  | tokens_index (i size : Nat)
  | args_index (i : Nat)
  | poll_bound
  deriving DecidableEq, Repr

/-- Number of slots of `char *args[128]`. -/
def ARGS_SLOTS : Nat := 128

/-- The assignment `args[i] = v`. -/
def storeArg (args : List Slot) (i : Nat) (v : Slot) : Except Fault (List Slot) :=
  if i < args.length then Except.ok (args.set i v) else Except.error (Fault.args_index i)

/-- Lines 66-68: `for (size_t i = 0; i < tokens.size(); i++) args[i] = tokens[i].c_str()`,
from index `i` on, over the tokens not yet copied. -/
def fillArgs : List String → Nat → List Slot → Except Fault (List Slot)
  | [], _, args => Except.ok args
  | t :: ts, i, args =>
    match storeArg args i (Slot.ptr t) with
    | Except.error f => Except.error f
    | Except.ok args1 => fillArgs ts (i + 1) args1

/-- Lines 65-69: the buffer is declared, filled, and `args[tokens.size()] = NULL`
is stored. -/
def prepareArgs (tokens : List String) : Except Fault (List Slot) :=
  match fillArgs tokens 0 (List.replicate ARGS_SLOTS Slot.uninit) with
  | Except.error f => Except.error f
  | Except.ok args => storeArg args tokens.length Slot.null

/-- What one input line makes the loop do. -/
inductive Dispatch where
  | shutdown
  | blank
  | cd (tokens : List String)
  | setPrompt (newPrompt : String)
  | jobs
  | execute (args : List Slot) (isBackground : Bool) (commandName : String)
  deriving DecidableEq, Repr

/-- Lines 43-71: built-in dispatch and the call of `executeCommand`, on the
tokens left after the trailing `&` is stripped. -/
def dispatchTokens (tokens : List String) (isBackground : Bool) : Except Fault Dispatch :=
  match tokens[0]? with
  | none => Except.error (Fault.tokens_index 0 tokens.length)
  | some t0 =>
    if t0 = "cd" then
      Except.ok (Dispatch.cd tokens)
    else if t0 = "set" ∧ tokens.length > 3 ∧ tokens[1]? = some "prompt" then
      match tokens[3]? with
      | none => Except.error (Fault.tokens_index 3 tokens.length)
      | some t3 => Except.ok (Dispatch.setPrompt (t3 ++ " "))
    else if t0 = "jobs" then
      Except.ok Dispatch.jobs
    else
      match prepareArgs tokens with
      | Except.error f => Except.error f
      | Except.ok args => Except.ok (Dispatch.execute args isBackground t0)

/-- Lines 17-71 of `Shell::run` for one read: `none` is a failed `getline`. -/
def dispatch (input : Option String) : Except Fault Dispatch :=
  match input with
  | none => Except.ok Dispatch.shutdown
  | some input_line =>
    if input_line = "exit" then
      Except.ok Dispatch.shutdown
    else
      let tokens := tokenize input_line
      if tokens.isEmpty then
        Except.ok Dispatch.blank
      else
        dispatchTokens (stripBackground tokens).1 (stripBackground tokens).2

/-- How one pass through the body of `while (true)` ends. -/
inductive LoopStep (W : Type) where
  | continue (w : W) (s : Shell)
  | break (w : W) (s : Shell)
  | child (w : W) (s : Shell)

/-- One pass through the body of the `while (true)` loop of `Shell::run`. -/
def runIteration {W : Type} (os : OS W) (w : W) (s : Shell) (input : Option String) :
    Except Fault (LoopStep W) :=
  match checkBackgroundJobs os w s with
  | none => Except.error Fault.poll_bound
  | some (w1, s1) =>
    let s2 := s1.log [Event.cout s1.prompt]
    match dispatch input with
    | Except.error f => Except.error f
    | Except.ok Dispatch.shutdown =>
      Except.ok (LoopStep.break (shutdownDrain os w1 s2).1 (shutdownDrain os w1 s2).2)
    | Except.ok Dispatch.blank => Except.ok (LoopStep.continue w1 s2)
    | Except.ok (Dispatch.cd tokens) =>
      match tokens[1]? with
      | none => Except.ok (LoopStep.continue w1 (s2.log [Event.cerr "usage: cd <dir>"]))
      | some dir =>
        if (os.chdir w1 dir).1 < 0 then
          Except.ok (LoopStep.continue (os.chdir w1 dir).2
            (s2.log [Event.sys_chdir dir, Event.cout "cd failed."]))
        else
          Except.ok (LoopStep.continue (os.chdir w1 dir).2 (s2.log [Event.sys_chdir dir]))
    | Except.ok (Dispatch.setPrompt newPrompt) =>
      Except.ok (LoopStep.continue w1 { s2 with prompt := newPrompt })
    | Except.ok Dispatch.jobs =>
      Except.ok (LoopStep.continue w1
        (s2.log (s2.backgroundJobs.map (fun job => Event.jobLine job.id job.pid job.command))))
    | Except.ok (Dispatch.execute args isBackground commandName) =>
      match executeCommand os w1 s2 args isBackground commandName with
      | ExecOutcome.returned w2 s3 => Except.ok (LoopStep.continue w2 s3)
      | ExecOutcome.child w2 s3 => Except.ok (LoopStep.child w2 s3)

/-! ## Specification-side vocabulary -/

/-- The answers of the non-blocking status check, in table order, as one pass
over the table observes them: the world is threaded from one check to the
next, through the clock and usage reads made for a job found completed. -/
def verdicts {W : Type} (os : OS W) : W → List Job → List Bool
  | _, [] => []
  | w, job :: rest =>
    if (os.waitpid w job.pid true).1 > 0 then
      true :: verdicts os
        (os.getrusage_children (os.gettimeofday (os.waitpid w job.pid true).2).2).2 rest
    else
      false :: verdicts os (os.waitpid w job.pid true).2 rest

/-- The jobs whose verdict is "terminated", in table order. -/
def reportedJobs (jobs : List Job) (vs : List Bool) : List Job :=
  ((jobs.zip vs).filter (fun p => p.2)).map Prod.fst

/-- The jobs whose verdict is "still running", in table order. -/
def liveJobs (jobs : List Job) (vs : List Bool) : List Job :=
  ((jobs.zip vs).filter (fun p => !p.2)).map Prod.fst

/-- The poll as the specification words it (`pollCompleted`): for every job in
table order, a non-blocking status check; a completed job gets a completion
timestamp, a usage snapshot, a completion announcement and a statistics report
and leaves the table; any other job stays.  Returns the final world, the
table afterwards and the trace entries produced. -/
def pollCompleted {W : Type} (os : OS W) : W → List Job → W × List Job × List Event
  | w, [] => (w, [], [])
  | w, job :: rest =>
    let (r, w1) := os.waitpid w job.pid true
    if r > 0 then
      let (end_, w2) := os.gettimeofday w1
      let (after, w3) := os.getrusage_children w2
      let (w4, live, events) := pollCompleted os w3 rest
      (w4, live,
        [Event.sys_waitpid job.pid true, Event.sys_gettimeofday,
          Event.sys_getrusage_children, Event.completed job.id job.pid,
          Event.statistics (printStatus job.start end_ (ru_delta after job.before))] ++ events)
    else
      let (w4, live, events) := pollCompleted os w1 rest
      (w4, job :: live, Event.sys_waitpid job.pid true :: events)

/-- The `(id, pid)` pairs of the completion announcements in a trace. -/
def completedOf : List Event → List (Int × Int)
  | [] => []
  | Event.completed id pid :: es => (id, pid) :: completedOf es
  | _ :: es => completedOf es

/-- The ids of the registration announcements `[id] pid` in a trace, that is
the ids handed out to background launches, in launch order. -/
def announcedIds : List Event → List Int
  | [] => []
  | Event.announce id _ :: es => id :: announcedIds es
  | _ :: es => announcedIds es

/-- States of the shell reachable from `Shell::Shell()` by calls of
`executeCommand` that return to the loop (background launch, foreground
launch, failed fork), by polls, and by whole passes of the read loop, each
against any operating-system oracle in any world. -/
inductive Reachable : Shell → Prop where
  | init : Reachable Shell.init
  | exec {W : Type} (os : OS W) (w w1 : W) (s s1 : Shell) (args : List Slot)
      (isBackground : Bool) (commandName : String) :
      Reachable s →
      executeCommand os w s args isBackground commandName = ExecOutcome.returned w1 s1 →
      Reachable s1
  | poll {W : Type} (os : OS W) (w w1 : W) (s s1 : Shell) :
      Reachable s → checkBackgroundJobs os w s = some (w1, s1) → Reachable s1
  | pass {W : Type} (os : OS W) (w w1 : W) (s s1 : Shell) (input : Option String) :
      Reachable s → runIteration os w s input = Except.ok (LoopStep.continue w1 s1) →
      Reachable s1

/-! ## Concrete oracles used to instantiate the theorems -/

/-- A world that is a tick counter: every call advances it, `fork` hands out
pid `100 + tick`, and a non-blocking wait reports even pids as terminated. -/
def tickOS : OS Nat where
  gettimeofday := fun w => (⟨w, 0⟩, w + 1)
  fork := fun w => (100 + w, w + 1)
  getrusage_children := fun w => ({ rusage.zero with ru_utime := ⟨w, 0⟩ }, w + 1)
  waitpid := fun w pid nohang => (if nohang && pid % 2 = 1 then 0 else pid, w + 1)
  chdir := fun w _ => (0, w + 1)

/-- As `tickOS`, but `fork` always fails. -/
def noForkOS : OS Nat :=
  { tickOS with fork := fun w => (-1, w + 1) }

/-- The state after `n` background launches of `sleep` in a row from the
initial state, each against `tickOS` in world 0 (so `fork` returns 101). -/
def launchRun : Nat → Shell
  | 0 => Shell.init
  | n + 1 =>
    match executeCommand tickOS 0 (launchRun n) [Slot.ptr "sleep", Slot.null] true "sleep" with
    | ExecOutcome.returned _ s => s
    | ExecOutcome.child _ s => s

/-- A sample job record. -/
def sampleJob (pid id : Int) : Job :=
  { pid := pid, id := id, command := "sleep", start := ⟨0, 0⟩, before := rusage.zero }

/-! ## Step shapes and the job-id invariant -/

/-- A step that hands out no id: counter unchanged, table thinned out at most,
trace extended by entries that are not registration announcements. -/
def Quiet (s s1 : Shell) : Prop :=
  s1.numJobs = s.numJobs ∧ s1.backgroundJobs.Sublist s.backgroundJobs ∧
  ∃ events, s1.trace = s.trace ++ events ∧ announcedIds events = []

/-- A step that registers one background job under the current counter value
and increments the `int` counter. -/
def Launch (s s1 : Shell) : Prop :=
  s1.numJobs = wrap_int (s.numJobs + 1) ∧
  (∃ job : Job, job.id = s.numJobs ∧ s1.backgroundJobs = s.backgroundJobs ++ [job]) ∧
  ∃ events, s1.trace = s.trace ++ events ∧ announcedIds events = [s.numJobs]

/-- The job-id invariant of the shell state: the counter is one more than the
number of ids handed out, the ids handed out are 1, 2, 3, ... in launch order,
every id in the table lies in `[1, numJobs)`, and the table is in strictly
ascending id order. -/
def JobIdInvariant (s : Shell) : Prop :=
  s.numJobs = ((announcedIds s.trace).length : Int) + 1 ∧
  announcedIds s.trace =
    (List.range (announcedIds s.trace).length).map (fun (k : Nat) => (k : Int) + 1) ∧
  (∀ j ∈ s.backgroundJobs, 1 ≤ j.id ∧ j.id < s.numJobs) ∧
  (s.backgroundJobs.map Job.id).Pairwise (fun a b => a < b)

/-! ## Theorems: resource-delta arithmetic -/

theorem wrap_long_of_inLong (x : Int) (h : inLong x) : wrap_long x = x := by
  unfold inLong LONG_MIN LONG_MAX at h
  unfold wrap_long
  omega

theorem tv_sub_eq (a b : timeval) :
    tv_sub a b =
      if wrap_long (a.tv_usec - b.tv_usec) < 0 then
        { tv_sec := wrap_long (wrap_long (a.tv_sec - b.tv_sec) - 1)
          tv_usec := wrap_long (wrap_long (a.tv_usec - b.tv_usec) + 1000000) }
      else
        { tv_sec := wrap_long (a.tv_sec - b.tv_sec)
          tv_usec := wrap_long (a.tv_usec - b.tv_usec) } := rfl

/-- `tv_sub` without overflow: when the seconds subtraction and, if taken, the
borrow decrement stay inside `long`, the result is the exact borrow form. -/
theorem tv_sub_in_range (a b : timeval) (ha : a.normalized) (hb : b.normalized)
    (hdiff : inLong (a.tv_sec - b.tv_sec))
    (hborrow : a.tv_usec < b.tv_usec → LONG_MIN < a.tv_sec - b.tv_sec) :
    tv_sub a b =
      if a.tv_usec - b.tv_usec < 0 then
        { tv_sec := a.tv_sec - b.tv_sec - 1, tv_usec := a.tv_usec - b.tv_usec + 1000000 }
      else { tv_sec := a.tv_sec - b.tv_sec, tv_usec := a.tv_usec - b.tv_usec } := by
  obtain ⟨ha0, ha1⟩ := ha
  obtain ⟨hb0, hb1⟩ := hb
  have hu : wrap_long (a.tv_usec - b.tv_usec) = a.tv_usec - b.tv_usec :=
    wrap_long_of_inLong _ (by unfold inLong LONG_MIN LONG_MAX; omega)
  have hs : wrap_long (a.tv_sec - b.tv_sec) = a.tv_sec - b.tv_sec :=
    wrap_long_of_inLong _ hdiff
  rw [tv_sub_eq, hu, hs]
  by_cases hneg : a.tv_usec - b.tv_usec < 0
  · rw [if_pos hneg, if_pos hneg]
    have hb2 := hborrow (by omega)
    unfold inLong LONG_MIN LONG_MAX at hdiff
    unfold LONG_MIN at hb2
    rw [wrap_long_of_inLong _ (by unfold inLong LONG_MIN LONG_MAX; omega),
      wrap_long_of_inLong _ (by unfold inLong LONG_MIN LONG_MAX; omega)]
  · rw [if_neg hneg, if_neg hneg]

/-- Claim C1, as amended: `tv_sub` is exact subtraction with borrow whenever no
step of it overflows `long`.  For timevals `a`, `b` whose microsecond fields
lie in `[0, 1000000)`, whose seconds difference `a.tv_sec - b.tv_sec` is
representable as a `long`, and is above `LONG_MIN` when the borrow is taken,
the result has its microsecond field in `[0, 1000000)` and represents exactly
the difference of the two instants counted in microseconds; in particular
`tv_sub {5, 200000} {3, 700000} = {1, 500000}`. -/
theorem tv_sub_exact (a b : timeval) (ha : a.normalized) (hb : b.normalized)
    (hdiff : inLong (a.tv_sec - b.tv_sec))
    (hborrow : a.tv_usec < b.tv_usec → LONG_MIN < a.tv_sec - b.tv_sec) :
    (0 ≤ (tv_sub a b).tv_usec ∧ (tv_sub a b).tv_usec < 1000000) ∧
    (tv_sub a b).tv_sec * 1000000 + (tv_sub a b).tv_usec =
      (a.tv_sec * 1000000 + a.tv_usec) - (b.tv_sec * 1000000 + b.tv_usec) ∧
    tv_sub ⟨5, 200000⟩ ⟨3, 700000⟩ = ⟨1, 500000⟩ := by
  rw [tv_sub_in_range a b ha hb hdiff hborrow]
  obtain ⟨ha0, ha1⟩ := ha
  obtain ⟨hb0, hb1⟩ := hb
  refine ⟨?_, ?_, by decide⟩
  · split <;> constructor <;> simp only <;> omega
  · split <;> simp only <;> omega

theorem tv_sub_exact_witness :
    (0 ≤ (tv_sub ⟨5, 200000⟩ ⟨3, 700000⟩).tv_usec ∧
      (tv_sub ⟨5, 200000⟩ ⟨3, 700000⟩).tv_usec < 1000000) ∧
    (tv_sub ⟨5, 200000⟩ ⟨3, 700000⟩).tv_sec * 1000000 +
        (tv_sub ⟨5, 200000⟩ ⟨3, 700000⟩).tv_usec =
      ((5 : Int) * 1000000 + 200000) - (3 * 1000000 + 700000) ∧
    tv_sub ⟨5, 200000⟩ ⟨3, 700000⟩ = ⟨1, 500000⟩ :=
  tv_sub_exact ⟨5, 200000⟩ ⟨3, 700000⟩ (by decide) (by decide) (by decide) (by decide)

theorem tv_sub_seconds_overflow :
    (⟨LONG_MAX, 0⟩ : timeval).normalized ∧ (⟨-1, 0⟩ : timeval).normalized ∧
    inLong LONG_MAX ∧ inLong (-1) ∧
    tv_sub ⟨LONG_MAX, 0⟩ ⟨-1, 0⟩ = ⟨LONG_MIN, 0⟩ ∧
    ¬ ((tv_sub ⟨LONG_MAX, 0⟩ ⟨-1, 0⟩).tv_sec * 1000000 +
        (tv_sub ⟨LONG_MAX, 0⟩ ⟨-1, 0⟩).tv_usec =
      (LONG_MAX * 1000000 + 0) - ((-1) * 1000000 + 0)) := by
  decide

/-- Claim C7: `tv_sub a a` is the zero timeval for every `a`, with no
normalisation assumption on `a`. -/
theorem tv_sub_self (a : timeval) : tv_sub a a = { tv_sec := 0, tv_usec := 0 } := by
  simp [tv_sub, wrap_long]

/-- Exact content of `tv_sub` for an ordered, normalised pair whose distance in
seconds fits in a `long`. -/
theorem tv_sub_ordered (a b : timeval) (ha : a.normalized) (hb : b.normalized)
    (hle : b.le a) (hfit : a.tv_sec - b.tv_sec ≤ LONG_MAX) :
    0 ≤ (tv_sub a b).tv_sec ∧ 0 ≤ (tv_sub a b).tv_usec ∧ (tv_sub a b).tv_usec < 1000000 ∧
    (tv_sub a b).tv_sec * 1000000 + (tv_sub a b).tv_usec = a.toMicros - b.toMicros := by
  have hle2 := hle
  unfold timeval.le at hle2
  have hdiff : inLong (a.tv_sec - b.tv_sec) := by
    unfold inLong LONG_MIN; unfold LONG_MAX at hfit ⊢; omega
  rw [tv_sub_in_range a b ha hb hdiff (by intro _; unfold LONG_MIN; omega)]
  obtain ⟨ha0, ha1⟩ := ha
  obtain ⟨hb0, hb1⟩ := hb
  unfold timeval.toMicros
  split <;> refine ⟨?_, ?_, ?_, ?_⟩ <;> simp only <;> omega

/-- The millisecond conversion `sec * 1000 + usec / 1000` in `long` arithmetic
is exact when the exact value fits. -/
theorem ms_exact (sec usec : Int) (h1 : 0 ≤ sec) (h2 : 0 ≤ usec) (h3 : usec < 1000000)
    (hfit : (sec * 1000000 + usec) / 1000 ≤ LONG_MAX) :
    wrap_long (wrap_long (sec * 1000) + Int.tdiv usec 1000) = (sec * 1000000 + usec) / 1000 := by
  rw [Int.tdiv_eq_ediv h2 (by decide)]
  unfold LONG_MAX at hfit
  unfold wrap_long
  omega

theorem printStatus_elapsed_eq (start end_ : timeval) (usage : rusage) :
    (printStatus start end_ usage).elapsed_ms =
      wrap_long (wrap_long ((tv_sub end_ start).tv_sec * 1000) +
        Int.tdiv (tv_sub end_ start).tv_usec 1000) := by
  rw [tv_sub_eq]
  simp only [printStatus]
  split <;> rfl

theorem printStatus_cpu_eq (start end_ : timeval) (usage : rusage) :
    (printStatus start end_ usage).cpu_ms =
      wrap_long
        (wrap_long (wrap_long (usage.ru_utime.tv_sec * 1000) +
            Int.tdiv usage.ru_utime.tv_usec 1000) +
          wrap_long (wrap_long (usage.ru_stime.tv_sec * 1000) +
            Int.tdiv usage.ru_stime.tv_usec 1000)) := rfl

/-- Claim C6, as amended: reported times are non-negative whenever the exact
millisecond values fit in a `long`.  For normalised `start`, `end_` with `end_`
not earlier than `start` and at most `LONG_MAX` whole milliseconds apart, the
elapsed milliseconds of `printStatus` are `≥ 0`; and for snapshots with
normalised user and system times that did not go backwards and whose user and
system milliseconds add up to at most `LONG_MAX`, the CPU milliseconds
`printStatus` computes from `ru_delta after before` are `≥ 0`. -/
theorem printStatus_times_nonneg :
    (∀ (start end_ : timeval) (usage : rusage),
      start.normalized → end_.normalized → start.le end_ →
      (end_.toMicros - start.toMicros) / 1000 ≤ LONG_MAX →
      0 ≤ (printStatus start end_ usage).elapsed_ms) ∧
    (∀ (start end_ : timeval) (after before : rusage),
      after.ru_utime.normalized → before.ru_utime.normalized →
      after.ru_stime.normalized → before.ru_stime.normalized →
      before.ru_utime.le after.ru_utime → before.ru_stime.le after.ru_stime →
      (after.ru_utime.toMicros - before.ru_utime.toMicros) / 1000 +
        (after.ru_stime.toMicros - before.ru_stime.toMicros) / 1000 ≤ LONG_MAX →
      0 ≤ (printStatus start end_ (ru_delta after before)).cpu_ms) := by
  constructor
  · intro start end_ usage hs he hle hfit
    have hsec : end_.tv_sec - start.tv_sec ≤ LONG_MAX := by
      have h1 := hs; have h2 := he; have h3 := hle
      unfold timeval.normalized at h1 h2
      unfold timeval.le at h3
      unfold timeval.toMicros at hfit
      unfold LONG_MAX at hfit ⊢
      omega
    obtain ⟨t1, t2, t3, t4⟩ := tv_sub_ordered end_ start he hs hle hsec
    rw [printStatus_elapsed_eq, ms_exact _ _ t1 t2 t3 (by rw [t4]; exact hfit), t4]
    omega
  · intro start end_ after before hau hbu has hbs hu hs hfit
    have hsecu : after.ru_utime.tv_sec - before.ru_utime.tv_sec ≤ LONG_MAX := by
      have h1 := hau; have h2 := hbu; have h3 := hu; have h4 := has; have h5 := hbs
      have h6 := hs
      unfold timeval.normalized at h1 h2 h4 h5
      unfold timeval.le at h3 h6
      unfold timeval.toMicros at hfit
      unfold LONG_MAX at hfit ⊢
      omega
    have hsecs : after.ru_stime.tv_sec - before.ru_stime.tv_sec ≤ LONG_MAX := by
      have h1 := hau; have h2 := hbu; have h3 := hu; have h4 := has; have h5 := hbs
      have h6 := hs
      unfold timeval.normalized at h1 h2 h4 h5
      unfold timeval.le at h3 h6
      unfold timeval.toMicros at hfit
      unfold LONG_MAX at hfit ⊢
      omega
    obtain ⟨u1, u2, u3, u4⟩ := tv_sub_ordered _ _ hau hbu hu hsecu
    obtain ⟨s1, s2, s3, s4⟩ := tv_sub_ordered _ _ has hbs hs hsecs
    have hu0 : 0 ≤ (after.ru_utime.toMicros - before.ru_utime.toMicros) / 1000 := by omega
    have hs0 : 0 ≤ (after.ru_stime.toMicros - before.ru_stime.toMicros) / 1000 := by omega
    rw [printStatus_cpu_eq]
    show 0 ≤ wrap_long
      (wrap_long (wrap_long ((tv_sub after.ru_utime before.ru_utime).tv_sec * 1000) +
          Int.tdiv (tv_sub after.ru_utime before.ru_utime).tv_usec 1000) +
        wrap_long (wrap_long ((tv_sub after.ru_stime before.ru_stime).tv_sec * 1000) +
          Int.tdiv (tv_sub after.ru_stime before.ru_stime).tv_usec 1000))
    rw [ms_exact _ _ u1 u2 u3 (by rw [u4]; omega), ms_exact _ _ s1 s2 s3 (by rw [s4]; omega),
      u4, s4, wrap_long_of_inLong _ (by unfold inLong LONG_MIN; constructor <;> omega)]
    omega

theorem printStatus_times_nonneg_witness :
    0 ≤ (printStatus ⟨3, 700000⟩ ⟨5, 200000⟩ rusage.zero).elapsed_ms ∧
    0 ≤ (printStatus ⟨3, 700000⟩ ⟨5, 200000⟩
      (ru_delta { rusage.zero with ru_utime := ⟨2, 100000⟩, ru_stime := ⟨1, 0⟩ }
        { rusage.zero with ru_utime := ⟨1, 900000⟩, ru_stime := ⟨0, 999999⟩ })).cpu_ms :=
  ⟨printStatus_times_nonneg.1 ⟨3, 700000⟩ ⟨5, 200000⟩ rusage.zero
      (by decide) (by decide) (by decide) (by decide),
    printStatus_times_nonneg.2 ⟨3, 700000⟩ ⟨5, 200000⟩
      { rusage.zero with ru_utime := ⟨2, 100000⟩, ru_stime := ⟨1, 0⟩ }
      { rusage.zero with ru_utime := ⟨1, 900000⟩, ru_stime := ⟨0, 999999⟩ }
      (by decide) (by decide) (by decide) (by decide) (by decide) (by decide) (by decide)⟩

theorem printStatus_elapsed_overflow :
    (⟨0, 0⟩ : timeval).normalized ∧
    (⟨9223372036854775, 808000⟩ : timeval).normalized ∧
    (⟨0, 0⟩ : timeval).le ⟨9223372036854775, 808000⟩ ∧
    (printStatus ⟨0, 0⟩ ⟨9223372036854775, 808000⟩ rusage.zero).elapsed_ms
      = -9223372036854775808 ∧
    ¬ (0 ≤ (printStatus ⟨0, 0⟩ ⟨9223372036854775, 808000⟩ rusage.zero).elapsed_ms) ∧
    (printStatus ⟨0, 0⟩ ⟨0, 0⟩
      (ru_delta { rusage.zero with ru_utime := ⟨9223372036854775, 808000⟩ } rusage.zero)).cpu_ms
      = -9223372036854775808 := by
  decide

/-! ## Theorems: failed spawn and shutdown drain -/
/-- Claim C8: a failed spawn leaves the bookkeeping unchanged.  When `fork`
returns a negative value, `executeCommand` returns to the loop, in foreground
and in background mode alike, with the job table, the id counter and the prompt
as they were; the only system calls issued are `gettimeofday` and `fork` (no
wait), and the only output is the error message (no job announcement, no
statistics report). -/
theorem executeCommand_fork_failure {W : Type} (os : OS W) (w : W) (s : Shell)
    (args : List Slot) (isBackground : Bool) (commandName : String)
    (hfork : (os.fork (os.gettimeofday w).2).1 < 0) :
    ∃ s1 : Shell,
      executeCommand os w s args isBackground commandName =
        ExecOutcome.returned (os.fork (os.gettimeofday w).2).2 s1 ∧
      s1.backgroundJobs = s.backgroundJobs ∧
      s1.numJobs = s.numJobs ∧
      s1.prompt = s.prompt ∧
      s1.trace = s.trace ++
        [Event.sys_gettimeofday, Event.sys_fork, Event.cerr "Fork error"] := by
  refine ⟨{ s with trace := s.trace ++
    [Event.sys_gettimeofday, Event.sys_fork, Event.cerr "Fork error"] }, ?_, rfl, rfl, rfl, rfl⟩
  simp [executeCommand, hfork, Shell.log]

theorem executeCommand_fork_failure_witness :
    ∃ s1 : Shell,
      executeCommand noForkOS 0 { Shell.init with backgroundJobs := [sampleJob 100 1], numJobs := 2 }
          [Slot.ptr "ls", Slot.null] true "ls" =
        ExecOutcome.returned 2 s1 ∧
      s1.backgroundJobs = [sampleJob 100 1] ∧
      s1.numJobs = 2 ∧
      s1.prompt = "==> " ∧
      s1.trace = [Event.sys_gettimeofday, Event.sys_fork, Event.cerr "Fork error"] :=
  executeCommand_fork_failure noForkOS 0
    { Shell.init with backgroundJobs := [sampleJob 100 1], numJobs := 2 }
    [Slot.ptr "ls", Slot.null] true "ls" (by decide)

theorem shutdownDrain_fold {W : Type} (os : OS W) (jobs : List Job) (w : W) (s : Shell) :
    ((jobs.foldl
      (fun (acc : W × Shell) (job : Job) =>
        ((os.waitpid acc.1 job.pid false).2, acc.2.log [Event.sys_waitpid job.pid false]))
      (w, s)).2.backgroundJobs = s.backgroundJobs) ∧
    ((jobs.foldl
      (fun (acc : W × Shell) (job : Job) =>
        ((os.waitpid acc.1 job.pid false).2, acc.2.log [Event.sys_waitpid job.pid false]))
      (w, s)).2.numJobs = s.numJobs) ∧
    ((jobs.foldl
      (fun (acc : W × Shell) (job : Job) =>
        ((os.waitpid acc.1 job.pid false).2, acc.2.log [Event.sys_waitpid job.pid false]))
      (w, s)).2.trace = s.trace ++ jobs.map (fun job => Event.sys_waitpid job.pid false)) := by
  induction jobs generalizing w s with
  | nil => simp
  | cons job rest ih =>
    simp only [List.foldl_cons, List.map_cons]
    obtain ⟨h1, h2, h3⟩ := ih (os.waitpid w job.pid false).2 (s.log [Event.sys_waitpid job.pid false])
    refine ⟨by rw [h1]; rfl, by rw [h2]; rfl, ?_⟩
    rw [h3]
    simp [Shell.log]

/-- Claim C5, as amended: the shutdown drain issues one blocking `waitpid` per
tracked job, in table order, after the "Waiting for background jobs..." line,
and leaves the job table and the id counter exactly as they were; the table is
empty afterwards only if it was empty before. -/
theorem shutdownDrain_keeps_table {W : Type} (os : OS W) (w : W) (s : Shell) :
    (shutdownDrain os w s).2.backgroundJobs = s.backgroundJobs ∧
    (shutdownDrain os w s).2.numJobs = s.numJobs ∧
    (shutdownDrain os w s).2.trace = s.trace ++
      (if s.backgroundJobs.isEmpty then []
       else Event.cout "Waiting for background jobs..." ::
         s.backgroundJobs.map (fun job => Event.sys_waitpid job.pid false)) ∧
    ((shutdownDrain os w s).2.backgroundJobs = [] ↔ s.backgroundJobs = []) := by
  have key : (shutdownDrain os w s).2.backgroundJobs = s.backgroundJobs := by
    unfold shutdownDrain
    by_cases h : s.backgroundJobs.isEmpty = true
    · rw [if_pos h]
    · rw [if_neg h]
      exact (shutdownDrain_fold os s.backgroundJobs w _).1
  refine ⟨key, ?_, ?_, by rw [key]⟩
  · unfold shutdownDrain
    by_cases h : s.backgroundJobs.isEmpty = true
    · rw [if_pos h]
    · rw [if_neg h]
      exact (shutdownDrain_fold os s.backgroundJobs w _).2.1
  · unfold shutdownDrain
    by_cases h : s.backgroundJobs.isEmpty = true
    · rw [if_pos h, if_pos h]; simp
    · rw [if_neg h, if_neg h, (shutdownDrain_fold os s.backgroundJobs w _).2.2]
      simp [Shell.log]

theorem shutdownDrain_table_not_empty :
    (shutdownDrain tickOS 0 { Shell.init with backgroundJobs := [sampleJob 100 1], numJobs := 2 }).2.backgroundJobs
      = [sampleJob 100 1] ∧
    ¬ ((shutdownDrain tickOS 0
        { Shell.init with backgroundJobs := [sampleJob 100 1], numJobs := 2 }).2.backgroundJobs = []) := by
  decide

/-! ## Theorems: the poll -/
theorem pollCompleted_cons {W : Type} (os : OS W) (w : W) (job : Job) (rest : List Job) :
    pollCompleted os w (job :: rest) =
      if (os.waitpid w job.pid true).1 > 0 then
        ((pollCompleted os (os.getrusage_children
            (os.gettimeofday (os.waitpid w job.pid true).2).2).2 rest).1,
         (pollCompleted os (os.getrusage_children
            (os.gettimeofday (os.waitpid w job.pid true).2).2).2 rest).2.1,
         [Event.sys_waitpid job.pid true, Event.sys_gettimeofday,
          Event.sys_getrusage_children, Event.completed job.id job.pid,
          Event.statistics (printStatus job.start
            (os.gettimeofday (os.waitpid w job.pid true).2).1
            (ru_delta (os.getrusage_children
              (os.gettimeofday (os.waitpid w job.pid true).2).2).1 job.before))] ++
          (pollCompleted os (os.getrusage_children
            (os.gettimeofday (os.waitpid w job.pid true).2).2).2 rest).2.2)
      else
        ((pollCompleted os (os.waitpid w job.pid true).2 rest).1,
         job :: (pollCompleted os (os.waitpid w job.pid true).2 rest).2.1,
         Event.sys_waitpid job.pid true ::
           (pollCompleted os (os.waitpid w job.pid true).2 rest).2.2) := by
  rfl

theorem checkLoop_succ {W : Type} (os : OS W) (fuel i : Nat) (w : W) (s : Shell) :
    checkLoop os (fuel + 1) i w s =
      if i < s.backgroundJobs.length then
        match s.backgroundJobs[i]? with
        | none => none
        | some job =>
          if (os.waitpid w job.pid true).1 > 0 then
            checkLoop os fuel (size_t_inc (size_t_dec i))
              (os.getrusage_children (os.gettimeofday (os.waitpid w job.pid true).2).2).2
              { backgroundJobs := s.backgroundJobs.eraseIdx i
                numJobs := s.numJobs
                prompt := s.prompt
                trace := s.trace ++ [Event.sys_waitpid job.pid true, Event.sys_gettimeofday,
                  Event.sys_getrusage_children, Event.completed job.id job.pid,
                  Event.statistics (printStatus job.start
                    (os.gettimeofday (os.waitpid w job.pid true).2).1
                    (ru_delta (os.getrusage_children
                      (os.gettimeofday (os.waitpid w job.pid true).2).2).1 job.before))] }
          else
            checkLoop os fuel (size_t_inc i) (os.waitpid w job.pid true).2
              { backgroundJobs := s.backgroundJobs
                numJobs := s.numJobs
                prompt := s.prompt
                trace := s.trace ++ [Event.sys_waitpid job.pid true] }
      else some (w, s) := by
  rfl

theorem size_t_inc_dec (i : Nat) (h : i < 2 ^ 64) : size_t_inc (size_t_dec i) = i := by
  unfold size_t_inc size_t_dec
  norm_num at h ⊢
  omega

theorem size_t_inc_lt (i : Nat) (h : i + 1 < 2 ^ 64) : size_t_inc i = i + 1 := by
  unfold size_t_inc
  exact Nat.mod_eq_of_lt h

theorem checkLoop_refines {W : Type} (os : OS W) (rest : List Job) :
    ∀ (kept : List Job) (w : W) (s : Shell) (fuel : Nat),
      s.backgroundJobs = kept ++ rest → (kept ++ rest).length < 2 ^ 64 → rest.length < fuel →
      checkLoop os fuel kept.length w s =
        some ((pollCompleted os w rest).1,
          { backgroundJobs := kept ++ (pollCompleted os w rest).2.1
            numJobs := s.numJobs
            prompt := s.prompt
            trace := s.trace ++ (pollCompleted os w rest).2.2 }) := by
  induction rest with
  | nil =>
    intro kept w s fuel hs _ hfuel
    obtain ⟨f, rfl⟩ : ∃ f, fuel = f + 1 := ⟨fuel - 1, by omega⟩
    have hge : ¬ kept.length < s.backgroundJobs.length := by
      rw [hs]; simp
    rw [checkLoop_succ, if_neg hge]
    cases s
    simp only [List.append_nil] at hs
    simp [pollCompleted, hs]
  | cons job rest ih =>
    intro kept w s fuel hs hlen hfuel
    obtain ⟨f, rfl⟩ : ∃ f, fuel = f + 1 := ⟨fuel - 1, by omega⟩
    simp only [List.length_append, List.length_cons] at hlen hfuel
    have hget : s.backgroundJobs[kept.length]? = some job := by
      rw [hs, List.getElem?_append_right (le_refl _)]; simp
    have hlt : kept.length < s.backgroundJobs.length := by
      rw [hs]; simp
    rw [checkLoop_succ, if_pos hlt, hget, pollCompleted_cons]
    simp only
    by_cases hr : (os.waitpid w job.pid true).1 > 0
    · rw [if_pos hr, if_pos hr, size_t_inc_dec _ (by omega)]
      have herase : s.backgroundJobs.eraseIdx kept.length = kept ++ rest := by
        rw [hs, List.eraseIdx_append_of_length_le (le_refl _)]; simp
      rw [ih kept _ _ f herase (by simp; omega) (by omega)]
      simp
    · rw [if_neg hr, if_neg hr, size_t_inc_lt _ (by omega)]
      have h1 := ih (kept ++ [job]) (os.waitpid w job.pid true).2
        { backgroundJobs := s.backgroundJobs, numJobs := s.numJobs, prompt := s.prompt,
          trace := s.trace ++ [Event.sys_waitpid job.pid true] } f
        (by simp [hs]) (by simp; omega) (by omega)
      simp only [List.length_append, List.length_singleton] at h1
      rw [h1]
      simp

theorem checkBackgroundJobs_eq {W : Type} (os : OS W) (w : W) (s : Shell)
    (hsize : s.backgroundJobs.length < 2 ^ 64) :
    checkBackgroundJobs os w s =
      some ((pollCompleted os w s.backgroundJobs).1,
        { backgroundJobs := (pollCompleted os w s.backgroundJobs).2.1
          numJobs := s.numJobs
          prompt := s.prompt
          trace := s.trace ++ (pollCompleted os w s.backgroundJobs).2.2 }) := by
  have h := checkLoop_refines os s.backgroundJobs [] w s (s.backgroundJobs.length + 1)
    (by simp) (by simpa using hsize) (by omega)
  simpa [checkBackgroundJobs] using h

theorem verdicts_length {W : Type} (os : OS W) (jobs : List Job) :
    ∀ w : W, (verdicts os w jobs).length = jobs.length := by
  induction jobs with
  | nil => intro w; rfl
  | cons job rest ih =>
    intro w
    unfold verdicts
    split <;> simp [ih]

theorem liveJobs_cons (job : Job) (rest : List Job) (v : Bool) (vs : List Bool) :
    liveJobs (job :: rest) (v :: vs) =
      if v then liveJobs rest vs else job :: liveJobs rest vs := by
  cases v <;> simp [liveJobs, List.filter_cons]

theorem reportedJobs_cons (job : Job) (rest : List Job) (v : Bool) (vs : List Bool) :
    reportedJobs (job :: rest) (v :: vs) =
      if v then job :: reportedJobs rest vs else reportedJobs rest vs := by
  cases v <;> simp [reportedJobs, List.filter_cons]

theorem pollCompleted_live {W : Type} (os : OS W) (jobs : List Job) :
    ∀ w : W, (pollCompleted os w jobs).2.1 = liveJobs jobs (verdicts os w jobs) := by
  induction jobs with
  | nil => intro w; rfl
  | cons job rest ih =>
    intro w
    rw [pollCompleted_cons]
    unfold verdicts
    by_cases hr : (os.waitpid w job.pid true).1 > 0
    · rw [if_pos hr, if_pos hr, liveJobs_cons]; simp [ih]
    · rw [if_neg hr, if_neg hr, liveJobs_cons]; simp [ih]

theorem completedOf_append (xs ys : List Event) :
    completedOf (xs ++ ys) = completedOf xs ++ completedOf ys := by
  induction xs with
  | nil => rfl
  | cons e es ih => cases e <;> simp [completedOf, ih]

theorem announcedIds_append (xs ys : List Event) :
    announcedIds (xs ++ ys) = announcedIds xs ++ announcedIds ys := by
  induction xs with
  | nil => rfl
  | cons e es ih => cases e <;> simp [announcedIds, ih]

theorem pollCompleted_completed {W : Type} (os : OS W) (jobs : List Job) :
    ∀ w : W, completedOf (pollCompleted os w jobs).2.2 =
      (reportedJobs jobs (verdicts os w jobs)).map (fun j => (j.id, j.pid)) := by
  induction jobs with
  | nil => intro w; rfl
  | cons job rest ih =>
    intro w
    rw [pollCompleted_cons]
    unfold verdicts
    by_cases hr : (os.waitpid w job.pid true).1 > 0
    · rw [if_pos hr, if_pos hr, reportedJobs_cons]; simp [completedOf, ih]
    · rw [if_neg hr, if_neg hr, reportedJobs_cons]; simp [completedOf, ih]

theorem verdicts_memoryless {W : Type} (os : OS W) (done : Int → Bool)
    (hdone : ∀ (w : W) (pid : Int), decide ((os.waitpid w pid true).1 > 0) = done pid)
    (jobs : List Job) :
    ∀ w : W, verdicts os w jobs = jobs.map (fun j => done j.pid) := by
  induction jobs with
  | nil => intro w; rfl
  | cons job rest ih =>
    intro w
    unfold verdicts
    have h := hdone w job.pid
    by_cases hr : (os.waitpid w job.pid true).1 > 0
    · rw [if_pos hr, ih]; simp [← h, hr]
    · rw [if_neg hr, ih]; simp [← h, hr]

theorem liveJobs_map (f : Job → Bool) (jobs : List Job) :
    liveJobs jobs (jobs.map f) = jobs.filter (fun j => !f j) := by
  induction jobs with
  | nil => rfl
  | cons job rest ih =>
    rw [List.map_cons, liveJobs_cons, ih, List.filter_cons]
    cases f job <;> simp

theorem reportedJobs_map (f : Job → Bool) (jobs : List Job) :
    reportedJobs jobs (jobs.map f) = jobs.filter f := by
  induction jobs with
  | nil => rfl
  | cons job rest ih =>
    rw [List.map_cons, reportedJobs_cons, ih, List.filter_cons]

theorem liveJobs_sublist (jobs : List Job) : ∀ vs : List Bool, (liveJobs jobs vs).Sublist jobs := by
  induction jobs with
  | nil => intro vs; simp [liveJobs]
  | cons job rest ih =>
    intro vs
    cases vs with
    | nil => simp [liveJobs]
    | cons v vs =>
      rw [liveJobs_cons]
      cases v
      · simpa using (ih vs).cons₂ job
      · simpa using (ih vs).cons job

theorem reportedJobs_sublist (jobs : List Job) :
    ∀ vs : List Bool, (reportedJobs jobs vs).Sublist jobs := by
  induction jobs with
  | nil => intro vs; simp [reportedJobs]
  | cons job rest ih =>
    intro vs
    cases vs with
    | nil => simp [reportedJobs]
    | cons v vs =>
      rw [reportedJobs_cons]
      cases v
      · simpa using (ih vs).cons job
      · simpa using (ih vs).cons₂ job

theorem reported_not_live (jobs : List Job) :
    ∀ vs : List Bool, (jobs.map Job.id).Nodup →
      ∀ j ∈ reportedJobs jobs vs, j.id ∉ (liveJobs jobs vs).map Job.id := by
  induction jobs with
  | nil => intro vs _ j hj; simp [reportedJobs] at hj
  | cons job rest ih =>
    intro vs hnd j hj
    rw [List.map_cons, List.nodup_cons] at hnd
    cases vs with
    | nil => simp [reportedJobs] at hj
    | cons v vs =>
      rw [reportedJobs_cons] at hj
      rw [liveJobs_cons]
      cases v
      · simp only [Bool.false_eq_true, if_false] at hj ⊢
        rw [List.map_cons, List.mem_cons, not_or]
        refine ⟨?_, ih vs hnd.2 j hj⟩
        intro heq
        exact hnd.1 (heq ▸ List.mem_map_of_mem Job.id ((reportedJobs_sublist rest vs).subset hj))
      · simp only [if_true] at hj ⊢
        rcases List.mem_cons.mp hj with rfl | hj
        · intro hmem
          exact hnd.1 (((liveJobs_sublist rest vs).map Job.id).subset hmem)
        · exact ih vs hnd.2 j hj

/-- Claim C2: one call of `checkBackgroundJobs` partitions the table.  For a
table of fewer than `2 ^ 64` entries (every `std::vector` is) and any oracle,
the call returns; the completion announcements it adds to the trace are those
of exactly the jobs the non-blocking `waitpid` reported terminated, once each
and in table order; the table afterwards is exactly the other jobs, in their
original order and with every field unchanged; counter and prompt are
untouched.  For an oracle whose answer depends on the pid alone both lists are
plain filters of the table.  When the ids of the table are pairwise distinct,
no reported id is left in the table, and a later poll, against any oracle,
returns without announcing any of them again. -/
theorem checkBackgroundJobs_partition {W : Type} (os : OS W) (w : W) (s : Shell)
    (hsize : s.backgroundJobs.length < 2 ^ 64) :
    ∃ (w1 : W) (s1 : Shell) (events : List Event),
      checkBackgroundJobs os w s = some (w1, s1) ∧
      s1.trace = s.trace ++ events ∧
      (verdicts os w s.backgroundJobs).length = s.backgroundJobs.length ∧
      completedOf events =
        (reportedJobs s.backgroundJobs (verdicts os w s.backgroundJobs)).map
          (fun j => (j.id, j.pid)) ∧
      s1.backgroundJobs = liveJobs s.backgroundJobs (verdicts os w s.backgroundJobs) ∧
      s1.numJobs = s.numJobs ∧
      s1.prompt = s.prompt ∧
      (∀ done : Int → Bool,
        (∀ (w0 : W) (pid : Int), decide ((os.waitpid w0 pid true).1 > 0) = done pid) →
        completedOf events =
          (s.backgroundJobs.filter (fun j => done j.pid)).map (fun j => (j.id, j.pid)) ∧
        s1.backgroundJobs = s.backgroundJobs.filter (fun j => !done j.pid)) ∧
      ((s.backgroundJobs.map Job.id).Nodup →
        (∀ j ∈ reportedJobs s.backgroundJobs (verdicts os w s.backgroundJobs),
          j.id ∉ s1.backgroundJobs.map Job.id) ∧
        ∀ {W2 : Type} (os2 : OS W2) (w2 : W2),
          ∃ (w3 : W2) (s3 : Shell) (events2 : List Event),
            checkBackgroundJobs os2 w2 s1 = some (w3, s3) ∧
            s3.trace = s1.trace ++ events2 ∧
            ∀ j ∈ reportedJobs s.backgroundJobs (verdicts os w s.backgroundJobs),
              ∀ p ∈ completedOf events2, p.1 ≠ j.id) := by
  have hlive := pollCompleted_live os s.backgroundJobs w
  refine ⟨_, _, (pollCompleted os w s.backgroundJobs).2.2, checkBackgroundJobs_eq os w s hsize,
    rfl, verdicts_length os _ w, pollCompleted_completed os _ w, hlive, rfl, rfl, ?_, ?_⟩
  · intro done hdone
    constructor
    · rw [pollCompleted_completed, verdicts_memoryless os done hdone, reportedJobs_map]
    · show (pollCompleted os w s.backgroundJobs).2.1 = _
      rw [hlive, verdicts_memoryless os done hdone, liveJobs_map]
  · intro hnd
    have hdis := reported_not_live s.backgroundJobs (verdicts os w s.backgroundJobs) hnd
    constructor
    · intro j hj
      show j.id ∉ List.map Job.id (pollCompleted os w s.backgroundJobs).2.1
      rw [hlive]
      exact hdis j hj
    · intro W2 os2 w2
      have hsub := liveJobs_sublist s.backgroundJobs (verdicts os w s.backgroundJobs)
      have hsize2 : (pollCompleted os w s.backgroundJobs).2.1.length < 2 ^ 64 := by
        rw [hlive]
        exact lt_of_le_of_lt hsub.length_le hsize
      refine ⟨_, _, _, checkBackgroundJobs_eq os2 w2 _ hsize2, rfl, ?_⟩
      intro j hj p hp heq
      simp only at hp
      rw [pollCompleted_completed, hlive] at hp
      obtain ⟨j2, hj2, rfl⟩ := List.mem_map.mp hp
      have hmem := (reportedJobs_sublist _ _).subset hj2
      exact hdis j hj (heq ▸ List.mem_map_of_mem Job.id hmem)

theorem checkBackgroundJobs_partition_witness :
    ∃ (w1 : Nat) (s1 : Shell),
      checkBackgroundJobs tickOS 0
        { Shell.init with
          backgroundJobs := [sampleJob 100 1, sampleJob 101 2, sampleJob 102 3]
          numJobs := 4 } = some (w1, s1) ∧
      s1.backgroundJobs = [sampleJob 101 2] ∧
      completedOf s1.trace = [(1, 100), (3, 102)] := by
  obtain ⟨w1, s1, events, hrun, htrace, _, hrep, hlive, _⟩ :=
    checkBackgroundJobs_partition tickOS 0
      { Shell.init with
        backgroundJobs := [sampleJob 100 1, sampleJob 101 2, sampleJob 102 3]
        numJobs := 4 } (by decide)
  refine ⟨w1, s1, hrun, ?_, ?_⟩
  · rw [hlive]; decide
  · rw [htrace, completedOf_append, hrep]; decide

/-! ## Theorems: job ids in reachable states -/
theorem Quiet.refl (s : Shell) : Quiet s s :=
  ⟨rfl, List.Sublist.refl _, [], by simp, rfl⟩

theorem Quiet.trans {a b c : Shell} (h1 : Quiet a b) (h2 : Quiet b c) : Quiet a c := by
  obtain ⟨n1, t1, e1, r1, q1⟩ := h1
  obtain ⟨n2, t2, e2, r2, q2⟩ := h2
  refine ⟨n2.trans n1, t2.trans t1, e1 ++ e2, ?_, ?_⟩
  · rw [r2, r1, List.append_assoc]
  · rw [announcedIds_append, q1, q2]; rfl

theorem Quiet.log (s : Shell) (events : List Event) (h : announcedIds events = []) :
    Quiet s (s.log events) :=
  ⟨rfl, List.Sublist.refl _, events, rfl, h⟩

theorem JobIdInvariant.init : JobIdInvariant Shell.init := by
  simp [JobIdInvariant, Shell.init, announcedIds]

theorem JobIdInvariant.quiet {s s1 : Shell} (hinv : JobIdInvariant s) (h : Quiet s s1) :
    JobIdInvariant s1 := by
  obtain ⟨hn, hids, hlt, hpw⟩ := hinv
  obtain ⟨n1, t1, e1, r1, q1⟩ := h
  have ha : announcedIds s1.trace = announcedIds s.trace := by
    rw [r1, announcedIds_append, q1, List.append_nil]
  refine ⟨by rw [n1, ha]; exact hn, by rw [ha]; exact hids, ?_, ?_⟩
  · intro j hj
    rw [n1]
    exact hlt j (t1.subset hj)
  · exact hpw.sublist (t1.map Job.id)

theorem Quiet.same_launches {s s1 : Shell} (h : Quiet s s1) :
    (announcedIds s1.trace).length = (announcedIds s.trace).length := by
  obtain ⟨_, _, e1, r1, q1⟩ := h
  rw [r1, announcedIds_append, q1, List.append_nil]

theorem Launch.one_more_launch {s s1 : Shell} (h : Launch s s1) :
    (announcedIds s1.trace).length = (announcedIds s.trace).length + 1 := by
  obtain ⟨_, _, e1, r1, q1⟩ := h
  rw [r1, announcedIds_append, q1, List.length_append, List.length_singleton]

theorem JobIdInvariant.launch {s s1 : Shell} (hinv : JobIdInvariant s) (h : Launch s s1)
    (hroom : s.numJobs < INT_MAX) : JobIdInvariant s1 := by
  obtain ⟨hn, hids, hlt, hpw⟩ := hinv
  obtain ⟨n1, ⟨job, hid, hjobs⟩, e1, r1, q1⟩ := h
  have hwrap : wrap_int (s.numJobs + 1) = s.numJobs + 1 := by
    unfold INT_MAX at hroom
    unfold wrap_int
    omega
  rw [hwrap] at n1
  have ha : announcedIds s1.trace = announcedIds s.trace ++ [s.numJobs] := by
    rw [r1, announcedIds_append, q1]
  refine ⟨?_, ?_, ?_, ?_⟩
  · rw [n1, ha, hn]; simp
  · rw [ha, List.length_append, List.length_singleton, List.range_succ, List.map_append,
      ← hids, hn]
    simp
  · intro j hj
    rw [hjobs, List.mem_append, List.mem_singleton] at hj
    rw [n1]
    rcases hj with hj | rfl
    · have := hlt j hj
      omega
    · rw [hid, hn]
      omega
  · rw [hjobs, List.map_append, List.pairwise_append]
    refine ⟨hpw, by simp, ?_⟩
    intro a ha b hb
    obtain ⟨j, hj, rfl⟩ := List.mem_map.mp ha
    simp only [List.map_cons, List.map_nil, List.mem_singleton] at hb
    rw [hb, hid]
    exact (hlt j hj).2

theorem checkLoop_quiet {W : Type} (os : OS W) (fuel : Nat) :
    ∀ (i : Nat) (w w1 : W) (s s1 : Shell),
      checkLoop os fuel i w s = some (w1, s1) → Quiet s s1 := by
  induction fuel with
  | zero => intro i w w1 s s1 h; simp [checkLoop] at h
  | succ f ih =>
    intro i w w1 s s1 h
    rw [checkLoop_succ] at h
    by_cases hlt : i < s.backgroundJobs.length
    · rw [if_pos hlt] at h
      cases hget : s.backgroundJobs[i]? with
      | none => rw [hget] at h; simp at h
      | some job =>
        rw [hget] at h
        simp only at h
        by_cases hr : (os.waitpid w job.pid true).1 > 0
        · rw [if_pos hr] at h
          have h2 := ih _ _ _ _ _ h
          refine Quiet.trans ?_ h2
          exact ⟨rfl, List.eraseIdx_sublist _ _, _, rfl, by simp [announcedIds]⟩
        · rw [if_neg hr] at h
          have h2 := ih _ _ _ _ _ h
          refine Quiet.trans ?_ h2
          exact ⟨rfl, List.Sublist.refl _, _, rfl, by simp [announcedIds]⟩
    · rw [if_neg hlt] at h
      simp only [Option.some.injEq, Prod.mk.injEq] at h
      rw [← h.2]
      exact Quiet.refl s

theorem checkBackgroundJobs_quiet {W : Type} (os : OS W) (w w1 : W) (s s1 : Shell)
    (h : checkBackgroundJobs os w s = some (w1, s1)) : Quiet s s1 :=
  checkLoop_quiet os _ _ _ _ _ _ h

theorem executeCommand_step {W : Type} (os : OS W) (w w1 : W) (s s1 : Shell)
    (args : List Slot) (isBackground : Bool) (commandName : String)
    (h : executeCommand os w s args isBackground commandName = ExecOutcome.returned w1 s1) :
    Quiet s s1 ∨ Launch s s1 := by
  unfold executeCommand at h
  simp only at h
  by_cases h1 : (os.fork (os.gettimeofday w).2).1 < 0
  · rw [if_pos h1] at h
    injection h with _ hs
    left
    rw [← hs]
    exact ⟨rfl, List.Sublist.refl _, [Event.sys_gettimeofday, Event.sys_fork,
      Event.cerr "Fork error"], by simp [Shell.log], by simp [announcedIds]⟩
  · rw [if_neg h1] at h
    by_cases h2 : (os.fork (os.gettimeofday w).2).1 = 0
    · rw [if_pos h2] at h
      cases h
    · rw [if_neg h2] at h
      cases isBackground with
      | true =>
        simp only [if_true] at h
        injection h with _ hs
        right
        rw [← hs]
        exact ⟨rfl, ⟨_, rfl, rfl⟩, [Event.sys_gettimeofday, Event.sys_fork,
          Event.sys_getrusage_children,
          Event.announce s.numJobs (os.fork (os.gettimeofday w).2).1],
          by simp [Shell.log], by simp [announcedIds]⟩
      | false =>
        simp only [Bool.false_eq_true, if_false] at h
        injection h with _ hs
        left
        rw [← hs]
        exact Quiet.trans (Quiet.log s _ (by simp [announcedIds]))
          (Quiet.log _ _ (by simp [announcedIds]))

theorem announcedIds_jobLines (jobs : List Job) :
    announcedIds (jobs.map (fun job => Event.jobLine job.id job.pid job.command)) = [] := by
  induction jobs with
  | nil => rfl
  | cons j js ih => simpa [announcedIds] using ih

theorem Quiet.prompt (s : Shell) (p : String) : Quiet s { s with prompt := p } :=
  ⟨rfl, List.Sublist.refl _, [], by simp, rfl⟩

theorem runIteration_step {W : Type} (os : OS W) (w w1 : W) (s s1 : Shell)
    (input : Option String)
    (h : runIteration os w s input = Except.ok (LoopStep.continue w1 s1)) :
    ∃ s0, Quiet s s0 ∧ (Quiet s0 s1 ∨ Launch s0 s1) := by
  unfold runIteration at h
  cases hpoll : checkBackgroundJobs os w s with
  | none => rw [hpoll] at h; cases h
  | some r =>
    obtain ⟨w0, s0⟩ := r
    rw [hpoll] at h
    simp only at h
    have hq : Quiet s (s0.log [Event.cout s0.prompt]) :=
      Quiet.trans (checkBackgroundJobs_quiet os w w0 s s0 hpoll)
        (Quiet.log s0 _ (by simp [announcedIds]))
    refine ⟨_, hq, ?_⟩
    cases hd : dispatch input with
    | error f => rw [hd] at h; cases h
    | ok d =>
      rw [hd] at h
      cases d with
      | shutdown => cases h
      | blank =>
        injection h with h; injection h with _ hs
        rw [← hs]; exact Or.inl (Quiet.refl _)
      | cd tokens =>
        simp only at h
        cases hdir : tokens[1]? with
        | none =>
          rw [hdir] at h
          injection h with h; injection h with _ hs
          rw [← hs]; exact Or.inl (Quiet.log _ _ (by simp [announcedIds]))
        | some dir =>
          rw [hdir] at h
          simp only at h
          split at h
          · injection h with h; injection h with _ hs
            rw [← hs]; exact Or.inl (Quiet.log _ _ (by simp [announcedIds]))
          · injection h with h; injection h with _ hs
            rw [← hs]; exact Or.inl (Quiet.log _ _ (by simp [announcedIds]))
      | setPrompt p =>
        injection h with h; injection h with _ hs
        rw [← hs]; exact Or.inl (Quiet.prompt _ _)
      | jobs =>
        injection h with h; injection h with _ hs
        rw [← hs]; exact Or.inl (Quiet.log _ _ (announcedIds_jobLines _))
      | execute args isBackground commandName =>
        simp only at h
        cases hexec : executeCommand os w0 (s0.log [Event.cout s0.prompt]) args isBackground
            commandName with
        | returned w2 s3 =>
          rw [hexec] at h
          injection h with h; injection h with _ hs
          rw [← hs]
          exact executeCommand_step os w0 w2 _ s3 args isBackground commandName hexec
        | child w2 s3 => rw [hexec] at h; cases h

/-- The invariant holds in every reachable state in which the number of
background launches so far is below `INT_MAX`. -/
theorem reachable_invariant (s : Shell) (h : Reachable s) :
    ((announcedIds s.trace).length : Int) < INT_MAX → JobIdInvariant s := by
  induction h with
  | init => intro _; exact JobIdInvariant.init
  | exec os w w1 s s1 args isBackground commandName _ hstep ih =>
    intro hb
    rcases executeCommand_step os w w1 s s1 args isBackground commandName hstep with hq | hl
    · rw [hq.same_launches] at hb
      exact (ih hb).quiet hq
    · rw [hl.one_more_launch] at hb
      have hinv := ih (by push_cast at hb; omega)
      exact hinv.launch hl (by rw [hinv.1]; push_cast at hb; omega)
  | poll os w w1 s s1 _ hstep ih =>
    intro hb
    have hq := checkBackgroundJobs_quiet os w w1 s s1 hstep
    rw [hq.same_launches] at hb
    exact (ih hb).quiet hq
  | pass os w w1 s s1 input _ hstep ih =>
    intro hb
    obtain ⟨s0, hq0, hq | hl⟩ := runIteration_step os w w1 s s1 input hstep
    · rw [hq.same_launches, hq0.same_launches] at hb
      exact ((ih hb).quiet hq0).quiet hq
    · rw [hl.one_more_launch, hq0.same_launches] at hb
      have hinv := (ih (by push_cast at hb; omega)).quiet hq0
      refine hinv.launch hl ?_
      rw [hinv.1, hq0.same_launches]
      push_cast at hb
      omega

/-- Claim C3, as amended: job ids are strictly increasing and never reused as
long as the `int` counter has not overflowed.  In every reachable state in
which fewer than `INT_MAX` background jobs have been launched so far, the
counter is one more than the number of background launches, the k-th background
launch received id k, every id in the table is at least 1 and below the
counter, and the ids in the table are strictly increasing in table order, hence
pairwise distinct; in particular three background launches received ids 1, 2, 3
whatever was polled in between. -/
theorem reachable_job_ids (s : Shell) (h : Reachable s)
    (hbound : ((announcedIds s.trace).length : Int) < INT_MAX) :
    s.numJobs = ((announcedIds s.trace).length : Int) + 1 ∧
    announcedIds s.trace =
      (List.range (announcedIds s.trace).length).map (fun (k : Nat) => (k : Int) + 1) ∧
    (∀ j ∈ s.backgroundJobs, 1 ≤ j.id ∧ j.id < s.numJobs) ∧
    (s.backgroundJobs.map Job.id).Pairwise (fun a b => a < b) ∧
    (s.backgroundJobs.map Job.id).Nodup ∧
    ((announcedIds s.trace).length = 3 → announcedIds s.trace = [1, 2, 3]) := by
  obtain ⟨hn, hids, hlt, hpw⟩ := reachable_invariant s h hbound
  refine ⟨hn, hids, hlt, hpw, hpw.imp (fun h => ne_of_lt h), ?_⟩
  intro h3
  rw [hids, h3]
  rfl

theorem reachable_job_ids_witness :
    ∃ s : Shell, Reachable s ∧ s.numJobs = 4 ∧ announcedIds s.trace = [1, 2, 3] ∧
      s.backgroundJobs.map Job.id = [1, 3] ∧ completedOf s.trace = [(2, 102)] := by
  have h1 : Reachable _ :=
    Reachable.exec tickOS 0 _ Shell.init _ [Slot.ptr "sleep", Slot.null] true "sleep"
      Reachable.init rfl
  have h2 : Reachable _ :=
    Reachable.exec tickOS 1 _ _ _ [Slot.ptr "sleep", Slot.null] true "sleep" h1 rfl
  have h3 : Reachable _ := Reachable.poll tickOS 4 _ _ _ h2 rfl
  have h4 : Reachable _ :=
    Reachable.exec tickOS 8 _ _ _ [Slot.ptr "sleep", Slot.null] true "sleep" h3 rfl
  have h5 := reachable_job_ids _ h4 (by decide)
  exact ⟨_, h4, h5.1, h5.2.2.2.2.2 rfl, rfl, rfl⟩

theorem executeCommand_tick (s : Shell) :
    executeCommand tickOS 0 s [Slot.ptr "sleep", Slot.null] true "sleep" =
      ExecOutcome.returned 3
        { backgroundJobs := s.backgroundJobs ++
            [{ pid := 101, id := s.numJobs, command := "sleep", start := ⟨0, 0⟩,
               before := { rusage.zero with ru_utime := ⟨2, 0⟩ } }]
          numJobs := wrap_int (s.numJobs + 1)
          prompt := s.prompt
          trace := s.trace ++ [Event.sys_gettimeofday, Event.sys_fork] ++
            [Event.sys_getrusage_children, Event.announce s.numJobs 101] } := by
  rfl

theorem launchRun_succ (n : Nat) :
    launchRun (n + 1) =
      { backgroundJobs := (launchRun n).backgroundJobs ++
          [{ pid := 101, id := (launchRun n).numJobs, command := "sleep", start := ⟨0, 0⟩,
             before := { rusage.zero with ru_utime := ⟨2, 0⟩ } }]
        numJobs := wrap_int ((launchRun n).numJobs + 1)
        prompt := (launchRun n).prompt
        trace := (launchRun n).trace ++ [Event.sys_gettimeofday, Event.sys_fork] ++
          [Event.sys_getrusage_children, Event.announce (launchRun n).numJobs 101] } := by
  show (match executeCommand tickOS 0 (launchRun n) [Slot.ptr "sleep", Slot.null] true "sleep"
    with
    | ExecOutcome.returned _ s => s
    | ExecOutcome.child _ s => s) = _
  rw [executeCommand_tick]

/-- After `n` background launches in a row the `int` counter holds `n + 1`
reduced modulo `2 ^ 32`, the run is reachable, and from the first launch on the
table starts with the job of id 1 and ends with the job launched last. -/
theorem launchRun_spec (n : Nat) :
    Reachable (launchRun n) ∧
    (launchRun n).numJobs = wrap_int ((n : Int) + 1) ∧
    (1 ≤ n → ∃ j ∈ (launchRun n).backgroundJobs, j.id = 1) ∧
    (1 ≤ n → ∃ j ∈ (launchRun n).backgroundJobs, j.id = wrap_int (n : Int)) := by
  induction n with
  | zero => exact ⟨Reachable.init, by decide, by simp, by simp⟩
  | succ n ih =>
    obtain ⟨hr, hn, hhead, _⟩ := ih
    refine ⟨?_, ?_, ?_, ?_⟩
    · exact Reachable.exec tickOS 0 3 (launchRun n) _ [Slot.ptr "sleep", Slot.null] true
        "sleep" hr (by rw [launchRun_succ]; exact executeCommand_tick _)
    · rw [launchRun_succ]
      simp only [hn]
      unfold wrap_int
      push_cast
      omega
    · intro _
      rw [launchRun_succ]
      simp only
      by_cases h0 : n = 0
      · subst h0
        exact ⟨_, List.mem_append_right _ (List.mem_singleton_self _), rfl⟩
      · obtain ⟨j, hj, hid⟩ := hhead (by omega)
        exact ⟨j, List.mem_append_left _ hj, hid⟩
    · intro _
      rw [launchRun_succ]
      simp only
      refine ⟨_, List.mem_append_right _ (List.mem_singleton_self _), ?_⟩
      simp only [hn]
      push_cast
      rfl

theorem job_ids_after_int_overflow :
    Reachable (launchRun 2147483647) ∧
    (launchRun 2147483647).numJobs = -2147483648 ∧
    (∃ j ∈ (launchRun 2147483647).backgroundJobs, j.id = 2147483647) ∧
    ¬ (∀ j ∈ (launchRun 2147483647).backgroundJobs, j.id < (launchRun 2147483647).numJobs) := by
  obtain ⟨hr, hn, hhead, hlast⟩ := launchRun_spec 2147483647
  have hn2 : (launchRun 2147483647).numJobs = -2147483648 := by
    rw [hn]; decide
  obtain ⟨j, hj, hid⟩ := hlast (by decide)
  have hid2 : j.id = 2147483647 := by
    rw [hid]; decide
  refine ⟨hr, hn2, ⟨j, hj, hid2⟩, ?_⟩
  intro hall
  have := hall j hj
  rw [hn2, hid2] at this
  exact absurd this (by decide)

/-! ## Theorems: the read loop -/
/-- Claim C9 at the failing input: the line `&` tokenises to the one token `&`,
passes the `tokens.empty()` guard, loses that token to the background
stripping, and reaches the `tokens[0] == "cd"` comparison with an empty vector:
index 0 is read out of a vector of size 0. -/
theorem dispatch_lone_ampersand :
    tokenize "&" = ["&"] ∧
    stripBackground (tokenize "&") = ([], true) ∧
    dispatch (some "&") = Except.error (Fault.tokens_index 0 0) :=
  ⟨by decide, by decide, rfl⟩

/-! ## Theorems: the argument buffer -/
theorem storeArg_at (pre post : List Slot) (old v : Slot) :
    storeArg (pre ++ old :: post) pre.length v = Except.ok (pre ++ v :: post) := by
  unfold storeArg
  rw [if_pos (by simp)]
  simp

theorem storeArg_end (args : List Slot) (v : Slot) :
    storeArg args args.length v = Except.error (Fault.args_index args.length) := by
  unfold storeArg
  rw [if_neg (lt_irrefl _)]

theorem fillArgs_fits (ts : List String) :
    ∀ (pre post : List Slot), ts.length ≤ post.length →
      fillArgs ts pre.length (pre ++ post) =
        Except.ok (pre ++ ts.map Slot.ptr ++ post.drop ts.length) := by
  induction ts with
  | nil => intro pre post _; simp [fillArgs]
  | cons t ts ih =>
    intro pre post h
    cases post with
    | nil => simp at h
    | cons old post =>
      simp only [List.length_cons, Nat.add_le_add_iff_right] at h
      unfold fillArgs
      rw [storeArg_at]
      have := ih (pre ++ [Slot.ptr t]) post h
      simp only [List.length_append, List.length_singleton, List.append_assoc,
        List.singleton_append] at this
      simp only [this]
      simp

theorem fillArgs_overflows (ts : List String) :
    ∀ (pre post : List Slot), post.length < ts.length →
      fillArgs ts pre.length (pre ++ post) =
        Except.error (Fault.args_index (pre.length + post.length)) := by
  induction ts with
  | nil => intro pre post h; simp at h
  | cons t ts ih =>
    intro pre post h
    cases post with
    | nil =>
      unfold fillArgs
      have := storeArg_end pre (Slot.ptr t)
      simp only [List.append_nil, this, List.length_nil, Nat.add_zero]
    | cons old post =>
      simp only [List.length_cons, Nat.add_lt_add_iff_right] at h
      unfold fillArgs
      rw [storeArg_at]
      have := ih (pre ++ [Slot.ptr t]) post h
      simp only [List.length_append, List.length_singleton, List.append_assoc,
        List.singleton_append] at this
      simp only [this, List.length_cons]
      congr 2
      omega

theorem prepareArgs_of_buffer (tokens : List String) (buffer : List Slot)
    (hbuf : buffer.length = 128) :
    (match fillArgs tokens 0 buffer with
      | Except.error f => Except.error f
      | Except.ok args => storeArg args tokens.length Slot.null) =
      if tokens.length < 128 then
        Except.ok (tokens.map Slot.ptr ++ Slot.null :: buffer.drop (tokens.length + 1))
      else Except.error (Fault.args_index 128) := by
  by_cases h : tokens.length < 128
  · rw [if_pos h]
    have h1 := fillArgs_fits tokens [] buffer (by omega)
    simp only [List.length_nil, List.nil_append] at h1
    rw [h1]
    simp only
    cases hd : buffer.drop tokens.length with
    | nil =>
      have := congrArg List.length hd
      simp only [List.length_drop, List.length_nil] at this
      omega
    | cons old post =>
      have h2 := storeArg_at (tokens.map Slot.ptr) post old Slot.null
      rw [List.length_map] at h2
      rw [h2]
      have h3 : buffer.drop (tokens.length + 1) = post := by
        rw [← List.drop_drop, hd]
        rfl
      rw [h3]
  · rw [if_neg h]
    by_cases h128 : tokens.length = 128
    · have h1 := fillArgs_fits tokens [] buffer (by omega)
      simp only [List.length_nil, List.nil_append] at h1
      rw [h1]
      have h0 : buffer.drop tokens.length = [] := by
        apply List.drop_eq_nil_of_le
        omega
      simp only [h0, List.append_nil]
      have h2 := storeArg_end (tokens.map Slot.ptr) Slot.null
      rw [List.length_map] at h2
      rw [h2, h128]
    · have h1 := fillArgs_overflows tokens [] buffer (by omega)
      simp only [List.length_nil, List.nil_append, Nat.zero_add] at h1
      rw [h1, hbuf]

/-- The writes of lines 65-69 stay inside the buffer exactly when there are
fewer than 128 tokens; from 128 tokens on, the first write past the end is the
one at index 128. -/
theorem prepareArgs_spec (tokens : List String) :
    prepareArgs tokens =
      if tokens.length < 128 then
        Except.ok (tokens.map Slot.ptr ++ Slot.null ::
          List.replicate (127 - tokens.length) Slot.uninit)
      else Except.error (Fault.args_index 128) := by
  unfold prepareArgs
  refine (prepareArgs_of_buffer tokens (List.replicate ARGS_SLOTS Slot.uninit)
    (List.length_replicate _ _)).trans ?_
  by_cases h : tokens.length < 128
  · rw [if_pos h, if_pos h, List.drop_replicate]
    have : ARGS_SLOTS - (tokens.length + 1) = 127 - tokens.length := by
      unfold ARGS_SLOTS; omega
    rw [this]
  · rw [if_neg h, if_neg h]

set_option maxRecDepth 100000 in
/-- Claim C10 at the failing input: a line of 128 tokens is copied whole into
`args[0..127]` and the terminator is then stored at `args[128]`, one past the
last of the 128 slots; with 129 tokens the copy loop itself already writes
`args[128]`.  Nothing is cut off at the capacity. -/
theorem prepareArgs_overflow :
    (List.replicate 128 "a").length = 128 ∧
    tokenize (String.intercalate " " (List.replicate 128 "a")) = List.replicate 128 "a" ∧
    prepareArgs (List.replicate 128 "a") = Except.error (Fault.args_index 128) ∧
    prepareArgs (List.replicate 129 "a") = Except.error (Fault.args_index 128) ∧
    dispatch (some (String.intercalate " " (List.replicate 128 "a"))) =
      Except.error (Fault.args_index 128) := by
  refine ⟨by decide, by rfl, by rfl, by rfl, by rfl⟩

end UnixShell
